import Mathlib

set_option maxRecDepth 100000

/-!
Shallow embedding of the nice_pics PNG chunk codec.

Source files embedded here:
- src/src/chunk_type.rs : `ChunkType` (the 4-byte type code and its flag bits)
- src/src/chunk.rs      : `Chunk` (length, type, data, crc; construction,
  serialization `as_bytes`, parsing `TryFrom<&[u8]>`, `data_as_string`)

The repository's `lib.rs` also declares modules `crc` and `png` whose source
files are not present; those two components (`crc32` and the `Png` container)
are modelled from the specification (sections 4.1 and 4.4) and carry a
`Modelled from the spec:` doc comment.

Bytes are embedded as `Nat` (values < 256 where byte-ness matters, stated as
explicit hypotheses), `u32` values as `Nat` with explicit `% 2^32`, Rust
`Vec<u8>` / `&[u8]` as `List Nat`, strings as their byte lists, and fallible
operations as `Except CodecError`.  A Rust panic (out-of-range slice index)
is a distinct outcome from a returned error; it is embedded as the dedicated
error value `CodecError.slicePanic` so that the two can be told apart.
-/

/-- Outcomes of the fallible codec operations.  The source uses `anyhow`
bail sites; each constructor records one of them (or a panic site):
`invalidByte` = chunk_type.rs line 82, `invalidLen` = chunk_type.rs line 99,
`invalidCrc` = chunk.rs line 97, `invalidChar` = chunk.rs line 74,
`badSignature` = the container's signature check (spec section 4.4),
`slicePanic` = a Rust out-of-range slice index panic in chunk.rs lines 90-94
(a panic, not a returned error value). -/
inductive CodecError where
  | slicePanic : CodecError
  | invalidByte (b : Nat) : CodecError
  | invalidLen (n : Nat) : CodecError
  | invalidCrc (found expected : Nat) : CodecError
  | invalidChar (b : Nat) : CodecError
  | badSignature : CodecError
deriving DecidableEq

instance {ε α : Type} [DecidableEq ε] [DecidableEq α] : DecidableEq (Except ε α) :=
  fun a b =>
    match a, b with
    | .error e1, .error e2 => decidable_of_iff (e1 = e2) (by simp)
    | .ok x, .ok y => decidable_of_iff (x = y) (by simp)
    | .error _, .ok _ => isFalse (by simp)
    | .ok _, .error _ => isFalse (by simp)

/-- Reflected CRC-32 polynomial 0xEDB88320 (spec section 4.1). -/
def crcPoly : Nat := 0xEDB88320

/-- One step of the bitwise reflected CRC-32 register update. -/
def crc32Step (c : Nat) : Nat :=
  if c % 2 = 1 then (c / 2) ^^^ crcPoly else c / 2

/-- Feed one message byte into the CRC register and run 8 register steps. -/
def crc32Byte (c b : Nat) : Nat :=
  crc32Step^[8] (c ^^^ b)

/-- Modelled from the spec: `crc.rs` is declared in `lib.rs` but absent from
the sources; spec section 4.1 describes the standard reflected CRC-32
(polynomial 0xEDB88320, initial value 0xFFFFFFFF, final XOR 0xFFFFFFFF)
over an arbitrary byte sequence.  The table-driven form of the spec computes
the same function as this bitwise form. -/
def crc32 (data : List Nat) : Nat :=
  (data.foldl crc32Byte 0xFFFFFFFF) ^^^ 0xFFFFFFFF

/-- Big-endian 4-byte encoding of a `u32` (`u32::to_be_bytes`). -/
def u32be (n : Nat) : List Nat :=
  [n / 2 ^ 24 % 256, n / 2 ^ 16 % 256, n / 2 ^ 8 % 256, n % 256]

/-- Big-endian decoding of a byte list (`u32::from_be_bytes` on 4 bytes). -/
def fromBe (bs : List Nat) : Nat :=
  bs.foldl (fun acc b => acc * 256 + b) 0

/-- The byte range accepted for a chunk-type byte: ASCII `A-Z` or `a-z`
(chunk_type.rs line 79: `(b'A'..=b'Z').chain(b'a'..=b'z')`). -/
def isTypeByte (b : Nat) : Bool :=
  (65 ≤ b && b ≤ 90) || (97 ≤ b && b ≤ 122)

/-- The 4-byte chunk type code (chunk_type.rs `struct ChunkType`).
The 4-byte array `[u8; 4]` is embedded as a `List Nat`; contexts that need
it state length 4 and byte validity as hypotheses (`ChunkType.WellFormed`). -/
structure ChunkType where
  bytes : List Nat
deriving DecidableEq

/-- Embedding of `impl TryFrom<[u8; 4]> for ChunkType` (chunk_type.rs lines
78-87): loop over the bytes, bail at the first one outside `A-Z`/`a-z`
(`find?` returns the first such byte, as the source loop does). -/
def ChunkType.tryFrom (value : List Nat) : Except CodecError ChunkType :=
  match value.find? (fun b => !isTypeByte b) with
  | some b => .error (.invalidByte b)
  | none => .ok ⟨value⟩

/-- Embedding of `impl FromStr for ChunkType` (chunk_type.rs lines 98-107):
bail unless the byte length is 4, then take 4 bytes and delegate to
`ChunkType.tryFrom`.  The string argument is embedded as its byte list. -/
def ChunkType.fromStr (s : List Nat) : Except CodecError ChunkType :=
  if s.length ≠ 4 then .error (.invalidLen s.length)
  else ChunkType.tryFrom (s.take 4)

/-- Embedding of `String::from_utf8_lossy` restricted to the inputs this
codec feeds it: every ASCII byte (< 128) decodes to itself and any other
byte becomes the UTF-8 replacement character bytes `[239, 191, 189]`.
Both call sites (`ChunkType`'s `Display` and `Chunk::data_as_string`) only
ever pass bytes already validated to be ASCII, where this is exact. -/
def lossyDecode (bs : List Nat) : List Nat :=
  bs.flatMap (fun b => if b < 128 then [b] else [239, 191, 189])

/-- Embedding of `impl Display for ChunkType` (chunk_type.rs lines 110-114):
the lossy UTF-8 rendering of the 4 bytes, as a byte list. -/
def ChunkType.toString (t : ChunkType) : List Nat :=
  lossyDecode t.bytes

/-- Embedding of `ChunkType::get_bit_at` (chunk_type.rs lines 60-66):
`some` of the tested bit when `n <= 8`, `none` for the bail branch
(whose caller-side `.unwrap()` would panic). -/
def ChunkType.get_bit_at (input n : Nat) : Option Bool :=
  if n ≤ 8 then some (input &&& (1 <<< n) != 0) else none

/-- Embedding of `ChunkType::is_critical` (chunk_type.rs lines 25-27).
The source calls `.unwrap()` on `get_bit_at`; `getD false` stands in for it,
and the C10 theorem shows the `none` branch is unreachable at bit 5. -/
def ChunkType.is_critical (t : ChunkType) : Bool :=
  !((ChunkType.get_bit_at (t.bytes.getD 0 0) 5).getD false)

/-- Embedding of `ChunkType::is_public` (chunk_type.rs lines 32-34). -/
def ChunkType.is_public (t : ChunkType) : Bool :=
  !((ChunkType.get_bit_at (t.bytes.getD 1 0) 5).getD false)

/-- Embedding of `ChunkType::is_reserved_bit_valid` (chunk_type.rs 39-41). -/
def ChunkType.is_reserved_bit_valid (t : ChunkType) : Bool :=
  !((ChunkType.get_bit_at (t.bytes.getD 2 0) 5).getD false)

/-- Embedding of `ChunkType::is_safe_to_copy` (chunk_type.rs lines 46-48). -/
def ChunkType.is_safe_to_copy (t : ChunkType) : Bool :=
  (ChunkType.get_bit_at (t.bytes.getD 3 0) 5).getD false

/-- Embedding of `ChunkType::is_valid` (chunk_type.rs lines 51-53). -/
def ChunkType.is_valid (t : ChunkType) : Bool :=
  t.is_reserved_bit_valid

/-- A `ChunkType` value as the Rust type system guarantees it: exactly 4
bytes, each an ASCII letter (both constructors enforce this). -/
def ChunkType.WellFormed (t : ChunkType) : Prop :=
  t.bytes.length = 4 ∧ ∀ b ∈ t.bytes, isTypeByte b = true

instance (t : ChunkType) : Decidable t.WellFormed := by
  unfold ChunkType.WellFormed; infer_instance

/-- Embedding of `struct Chunk` (chunk.rs lines 17-22): length, type code,
data bytes, CRC. -/
structure Chunk where
  length : Nat
  chunk_type : ChunkType
  data : List Nat
  crc : Nat
deriving DecidableEq

/-- Embedding of `Chunk::calculate_crc` (chunk.rs lines 34-38): the CRC over
the type bytes followed by the data bytes. -/
def Chunk.calculate_crc (chunk_type : ChunkType) (data : List Nat) : Nat :=
  crc32 (chunk_type.bytes ++ data)

/-- Embedding of `Chunk::new` (chunk.rs lines 26-30).  `data.len() as u32`
truncates, hence the `% 2 ^ 32`. -/
def Chunk.new (chunk_type : ChunkType) (data : List Nat) : Chunk :=
  { length := data.length % 2 ^ 32
    chunk_type := chunk_type
    data := data
    crc := Chunk.calculate_crc chunk_type data }

/-- Embedding of `Chunk::as_bytes` (chunk.rs lines 42-48): big-endian length,
type bytes, data, big-endian CRC. -/
def Chunk.as_bytes (c : Chunk) : List Nat :=
  u32be c.length ++ (c.chunk_type.bytes ++ (c.data ++ u32be c.crc))

/-- Embedding of `Chunk::data_as_string` (chunk.rs lines 70-79): bail at the
first byte that is not ASCII (`u8::is_ascii` is `b <= 127`), otherwise the
lossy UTF-8 decoding of the data, as a byte list. -/
def Chunk.data_as_string (c : Chunk) : Except CodecError (List Nat) :=
  match c.data.find? (fun b => !(b ≤ 127)) with
  | some b => .error (.invalidChar b)
  | none => .ok (lossyDecode c.data)

/-- Embedding of `impl TryFrom<&[u8]> for Chunk` (chunk.rs lines 89-101).
The source slices `value[0..4]`, `value[4..8]`, `value[8..len-4]`,
`value[len-4..]`: the first two panic when fewer than 8 bytes are present,
and the third panics when fewer than 12 are (after the type validation,
which the source runs before taking the data slice); those panics are the
`slicePanic` outcome.  Otherwise: read the big-endian length, validate the
type code, take the data span `len - 12`, and bail unless the trailing
big-endian CRC equals the recomputed one. -/
def Chunk.tryFrom (value : List Nat) : Except CodecError Chunk :=
  if value.length < 8 then .error .slicePanic
  else
    match ChunkType.tryFrom ((value.drop 4).take 4) with
    | .error e => .error e
    | .ok ct =>
      if value.length < 12 then .error .slicePanic
      else
        let length := fromBe (value.take 4)
        let data := (value.drop 8).take (value.length - 12)
        let crc := fromBe (value.drop (value.length - 4))
        let calc_crc := Chunk.calculate_crc ct data
        if crc ≠ calc_crc then .error (.invalidCrc crc calc_crc)
        else .ok ⟨length, ct, data, crc⟩

/-- A `Chunk` value with the guarantees `Chunk::new` establishes: a
well-formed type code, byte-valued data, a length field equal to the data
length (and small enough to encode), and a CRC field equal to the
recomputed CRC over type + data. -/
def Chunk.WF (c : Chunk) : Prop :=
  c.chunk_type.WellFormed ∧ (∀ b ∈ c.data, b < 256) ∧
    c.length = c.data.length ∧ c.data.length < 2 ^ 32 ∧
    c.crc = Chunk.calculate_crc c.chunk_type c.data

instance (c : Chunk) : Decidable c.WF := by
  unfold Chunk.WF; infer_instance

/-- Flipping bit `j` of the byte at index `i` of a byte list (the corrupted
re-serialization the spec's single-bit-corruption property speaks of). -/
def flipBit (s : List Nat) (i j : Nat) : List Nat :=
  s.take i ++ ((s.getD i 0) ^^^ (1 <<< j)) :: s.drop (i + 1)

/-- Modelled from the spec: `png.rs` is declared in `lib.rs` but absent from
the sources; spec section 6 fixes the 8-byte file signature
`89 50 4E 47 0D 0A 1A 0A`. -/
def pngSignature : List Nat := [137, 80, 78, 71, 13, 10, 26, 10]

/-- Modelled from the spec: the `Png` container (spec section 4.4) holds the
ordered chunk sequence; the signature is the fixed constant. -/
structure Png where
  chunks : List Chunk
deriving DecidableEq

/-- Modelled from the spec: `append` inserts at the end of the sequence
(spec section 4.4). -/
def Png.append (p : Png) (c : Chunk) : Png :=
  ⟨p.chunks ++ [c]⟩

/-- Modelled from the spec: container serialization is the signature bytes
followed by each chunk's `as_bytes` in sequence order (spec section 4.4). -/
def Png.as_bytes (p : Png) : List Nat :=
  pngSignature ++ (p.chunks.map Chunk.as_bytes).flatten

/-- Helper for the container's chunk loop, structurally recursive on a
fuel count so that it evaluates by kernel reduction.  The caller passes
`value.length` as fuel; since every iteration consumes at least 12 bytes,
the fuel can never run out before the input is exhausted, so the
fuel-exhaustion branch is unreachable from `parseChunks`. -/
def parseChunksF (fuel : Nat) (value : List Nat) : Except CodecError (List Chunk) :=
  match fuel with
  | 0 => if value = [] then .ok [] else .error .slicePanic
  | fuel + 1 =>
    if value = [] then .ok []
    else
      let len := fromBe (value.take 4)
      match Chunk.tryFrom (value.take (12 + len)) with
      | .error e => .error e
      | .ok c =>
        match parseChunksF fuel (value.drop (12 + len)) with
        | .error e => .error e
        | .ok cs => .ok (c :: cs)

/-- Modelled from the spec: the container's chunk loop (spec section 4.4)
reads each chunk's embedded big-endian length field, hands the next
`12 + length` bytes to `Chunk`'s parser, and advances the cursor by that
amount until the input is exhausted, propagating any chunk error. -/
def parseChunks (value : List Nat) : Except CodecError (List Chunk) :=
  parseChunksF value.length value

/-- Modelled from the spec: `ChunkContainer::parse` (spec section 4.4)
validates that the first 8 bytes equal the signature, failing with
`badSignature` otherwise, then parses chunks immediately after it. -/
def Png.tryFrom (value : List Nat) : Except CodecError Png :=
  if value.take 8 ≠ pngSignature then .error .badSignature
  else
    match parseChunks (value.drop 8) with
    | .error e => .error e
    | .ok cs => .ok ⟨cs⟩

/-- The concrete type code the tests use: the bytes of "RuSt". -/
def rustType : ChunkType := ⟨[82, 117, 83, 116]⟩

/-- The byte sequence of the test message string. -/
def secretMsg : List Nat :=
  "This is where your secret message will be!".data.map Char.toNat

/-- A 12-byte record whose length field says 1 although its data span is
empty; its CRC (over type + empty data) is genuine, so it parses. -/
def badLenStream : List Nat :=
  [0, 0, 0, 1] ++ ([82, 117, 83, 116] ++ u32be (crc32 [82, 117, 83, 116]))

/-! ### Arithmetic and list helper lemmas -/

lemma length_u32be (n : Nat) : (u32be n).length = 4 := rfl

lemma fromBe_u32be (n : Nat) (h : n < 2 ^ 32) : fromBe (u32be n) = n := by
  simp only [fromBe, u32be, List.foldl_cons, List.foldl_nil]
  omega

lemma take_getD_drop (l : List Nat) (k : Nat) (h : k < l.length) :
    l.take k ++ l.getD k 0 :: l.drop (k + 1) = l := by
  induction l generalizing k with
  | nil => simp at h
  | cons a l ih =>
    cases k with
    | zero => simp
    | succ k =>
      simp only [List.take_succ_cons, List.getD_cons_succ, List.drop_succ_cons,
        List.cons_append, List.cons.injEq, true_and]
      exact ih k (by simpa using h)

/-! ### CRC-32 register lemmas: bound, injectivity, single-byte sensitivity -/

lemma crcPoly_lt : crcPoly < 2 ^ 32 := by decide

lemma crc32Step_lt {c : Nat} (h : c < 2 ^ 32) : crc32Step c < 2 ^ 32 := by
  unfold crc32Step
  split
  · exact Nat.xor_lt_two_pow (by omega) crcPoly_lt
  · omega

lemma xorPoly_ge {x : Nat} (h : x < 2 ^ 31) : 2 ^ 31 ≤ x ^^^ crcPoly := by
  by_contra h'
  push_neg at h'
  have hx : x.testBit 31 = false := Nat.testBit_eq_false_of_lt h
  have hxp : (x ^^^ crcPoly).testBit 31 = false := Nat.testBit_eq_false_of_lt h'
  have hp : crcPoly.testBit 31 = true := by decide
  rw [Nat.testBit_xor, hx, hp] at hxp
  simp at hxp

lemma crc32Step_inj {c1 c2 : Nat} (h1 : c1 < 2 ^ 32) (h2 : c2 < 2 ^ 32)
    (he : crc32Step c1 = crc32Step c2) : c1 = c2 := by
  unfold crc32Step at he
  rcases Nat.mod_two_eq_zero_or_one c1 with hm1 | hm1 <;>
    rcases Nat.mod_two_eq_zero_or_one c2 with hm2 | hm2
  · rw [if_neg (by omega), if_neg (by omega)] at he
    omega
  · rw [if_neg (by omega), if_pos hm2] at he
    have := xorPoly_ge (x := c2 / 2) (by omega)
    omega
  · rw [if_pos hm1, if_neg (by omega)] at he
    have := xorPoly_ge (x := c1 / 2) (by omega)
    omega
  · rw [if_pos hm1, if_pos hm2] at he
    have := congrArg (fun x => x ^^^ crcPoly) he
    simp only [Nat.xor_cancel_right] at this
    omega

lemma crc32StepIter_lt (n : Nat) {c : Nat} (h : c < 2 ^ 32) :
    crc32Step^[n] c < 2 ^ 32 := by
  induction n generalizing c with
  | zero => simpa using h
  | succ n ih =>
    rw [Function.iterate_succ_apply]
    exact ih (crc32Step_lt h)

lemma crc32StepIter_inj (n : Nat) {c1 c2 : Nat} (h1 : c1 < 2 ^ 32)
    (h2 : c2 < 2 ^ 32) (he : crc32Step^[n] c1 = crc32Step^[n] c2) : c1 = c2 := by
  induction n generalizing c1 c2 with
  | zero => simpa using he
  | succ n ih =>
    rw [Function.iterate_succ_apply, Function.iterate_succ_apply] at he
    exact crc32Step_inj h1 h2 (ih (crc32Step_lt h1) (crc32Step_lt h2) he)

lemma crc32Byte_lt {c b : Nat} (hc : c < 2 ^ 32) (hb : b < 256) :
    crc32Byte c b < 2 ^ 32 :=
  crc32StepIter_lt 8 (Nat.xor_lt_two_pow hc (by omega))

lemma crc32Byte_inj {c1 c2 b : Nat} (h1 : c1 < 2 ^ 32) (h2 : c2 < 2 ^ 32)
    (hb : b < 256) (he : crc32Byte c1 b = crc32Byte c2 b) : c1 = c2 := by
  have hx := crc32StepIter_inj 8 (Nat.xor_lt_two_pow h1 (by omega))
    (Nat.xor_lt_two_pow h2 (by omega)) he
  have := congrArg (fun x => x ^^^ b) hx
  simpa only [Nat.xor_cancel_right] using this

lemma crc32Byte_ne {c b b' : Nat} (hc : c < 2 ^ 32) (hb : b < 256)
    (hb' : b' < 256) (hne : b ≠ b') : crc32Byte c b ≠ crc32Byte c b' := by
  intro he
  have hx : c ^^^ b = c ^^^ b' := crc32StepIter_inj 8
    (Nat.xor_lt_two_pow hc (by omega)) (Nat.xor_lt_two_pow hc (by omega)) he
  have h2 := congrArg (fun x => c ^^^ x) hx
  simp only [Nat.xor_cancel_left] at h2
  exact hne h2

lemma foldl_crc_lt (bs : List Nat) {c : Nat} (hc : c < 2 ^ 32)
    (hb : ∀ b ∈ bs, b < 256) : bs.foldl crc32Byte c < 2 ^ 32 := by
  induction bs generalizing c with
  | nil => simpa using hc
  | cons b bs ih =>
    rw [List.foldl_cons]
    exact ih (crc32Byte_lt hc (hb b (by simp))) (fun x hx => hb x (by simp [hx]))

lemma foldl_crc_inj (bs : List Nat) {c1 c2 : Nat} (h1 : c1 < 2 ^ 32)
    (h2 : c2 < 2 ^ 32) (hb : ∀ b ∈ bs, b < 256)
    (he : bs.foldl crc32Byte c1 = bs.foldl crc32Byte c2) : c1 = c2 := by
  induction bs generalizing c1 c2 with
  | nil => simpa using he
  | cons b bs ih =>
    rw [List.foldl_cons, List.foldl_cons] at he
    have hbb : b < 256 := hb b (by simp)
    exact crc32Byte_inj h1 h2 hbb
      (ih (crc32Byte_lt h1 hbb) (crc32Byte_lt h2 hbb)
        (fun x hx => hb x (by simp [hx])) he)

lemma crc32_lt (bs : List Nat) (hb : ∀ b ∈ bs, b < 256) : crc32 bs < 2 ^ 32 :=
  Nat.xor_lt_two_pow (foldl_crc_lt bs (by norm_num) hb) (by norm_num)

lemma crc32_flip_ne (pre suf : List Nat) (b b' : Nat)
    (hpre : ∀ x ∈ pre, x < 256) (hsuf : ∀ x ∈ suf, x < 256)
    (hb : b < 256) (hb' : b' < 256) (hne : b ≠ b') :
    crc32 (pre ++ b :: suf) ≠ crc32 (pre ++ b' :: suf) := by
  intro he
  unfold crc32 at he
  have he' := congrArg (fun x => x ^^^ 0xFFFFFFFF) he
  simp only [Nat.xor_cancel_right] at he'
  rw [List.foldl_append, List.foldl_append, List.foldl_cons, List.foldl_cons] at he'
  have hs : pre.foldl crc32Byte 0xFFFFFFFF < 2 ^ 32 :=
    foldl_crc_lt pre (by norm_num) hpre
  have := foldl_crc_inj suf (crc32Byte_lt hs hb) (crc32Byte_lt hs hb') hsuf he'
  exact crc32Byte_ne hs hb hb' hne this

/-! ### Slicing lemmas for serialized chunk streams -/

lemma take_append_exact (l1 l2 : List Nat) (n : Nat) (h : l1.length = n) :
    (l1 ++ l2).take n = l1 := by
  subst h
  exact List.take_left l1 l2

lemma drop_append_exact (l1 l2 : List Nat) (n : Nat) (h : l1.length = n) :
    (l1 ++ l2).drop n = l2 := by
  subst h
  exact List.drop_left l1 l2

lemma chunkType_tryFrom_ok (l : List Nat) (h : ∀ b ∈ l, isTypeByte b = true) :
    ChunkType.tryFrom l = .ok ⟨l⟩ := by
  have hf : l.find? (fun b => !isTypeByte b) = none :=
    List.find?_eq_none.mpr (fun x hx => by simp [h x hx])
  unfold ChunkType.tryFrom
  rw [hf]

lemma chunkType_tryFrom_ok_eq {l : List Nat} {ct : ChunkType}
    (h : ChunkType.tryFrom l = .ok ct) : ct = ⟨l⟩ := by
  unfold ChunkType.tryFrom at h
  cases hf : l.find? (fun b => !isTypeByte b) with
  | none =>
    rw [hf] at h
    simp only [Except.ok.injEq] at h
    exact h.symm
  | some b =>
    rw [hf] at h
    exact absurd h (by simp)

lemma chunkType_tryFrom_error {l : List Nat} {e : CodecError}
    (h : ChunkType.tryFrom l = .error e) : ∃ b, e = .invalidByte b := by
  unfold ChunkType.tryFrom at h
  cases hf : l.find? (fun b => !isTypeByte b) with
  | none =>
    rw [hf] at h
    exact absurd h (by simp)
  | some b =>
    rw [hf] at h
    simp only [Except.error.injEq] at h
    exact ⟨b, h.symm⟩

lemma chunk_stream_length (L c : Nat) (tb d : List Nat) (htb : tb.length = 4) :
    (u32be L ++ (tb ++ (d ++ u32be c))).length = 12 + d.length := by
  simp [length_u32be, htb]
  omega

lemma chunk_stream_take4 (L c : Nat) (tb d : List Nat) :
    (u32be L ++ (tb ++ (d ++ u32be c))).take 4 = u32be L :=
  take_append_exact _ _ 4 rfl

lemma chunk_stream_type (L c : Nat) (tb d : List Nat) (htb : tb.length = 4) :
    ((u32be L ++ (tb ++ (d ++ u32be c))).drop 4).take 4 = tb := by
  rw [drop_append_exact (u32be L) (tb ++ (d ++ u32be c)) 4 rfl]
  exact take_append_exact _ _ 4 htb

lemma chunk_stream_data (L c : Nat) (tb d : List Nat) (htb : tb.length = 4) :
    ((u32be L ++ (tb ++ (d ++ u32be c))).drop 8).take d.length = d := by
  have hdrop8 : (u32be L ++ (tb ++ (d ++ u32be c))).drop 8 = d ++ u32be c := by
    rw [← List.append_assoc]
    exact drop_append_exact _ _ 8 (by simp [length_u32be, htb])
  rw [hdrop8]
  exact take_append_exact _ _ d.length rfl

lemma chunk_stream_crc (L c : Nat) (tb d : List Nat) (htb : tb.length = 4) :
    (u32be L ++ (tb ++ (d ++ u32be c))).drop (8 + d.length) = u32be c := by
  rw [show u32be L ++ (tb ++ (d ++ u32be c)) = ((u32be L ++ tb) ++ d) ++ u32be c
    by simp]
  exact drop_append_exact _ _ _ (by simp [length_u32be, htb]; omega)

lemma chunk_tryFrom_stream_ok (L c : Nat) (tb d : List Nat) (hL : L < 2 ^ 32)
    (hc : c < 2 ^ 32) (htb : tb.length = 4)
    (hvalid : ∀ b ∈ tb, isTypeByte b = true) (hcc : c = crc32 (tb ++ d)) :
    Chunk.tryFrom (u32be L ++ (tb ++ (d ++ u32be c))) = .ok ⟨L, ⟨tb⟩, d, c⟩ := by
  have hlen := chunk_stream_length L c tb d htb
  simp only [Chunk.tryFrom, hlen, chunk_stream_take4, chunk_stream_type L c tb d htb,
    chunkType_tryFrom_ok tb hvalid,
    show 12 + d.length - 12 = d.length from by omega,
    show 12 + d.length - 4 = 8 + d.length from by omega,
    chunk_stream_data L c tb d htb, chunk_stream_crc L c tb d htb,
    fromBe_u32be L hL, fromBe_u32be c hc,
    if_neg (by omega : ¬ 12 + d.length < 8),
    if_neg (by omega : ¬ 12 + d.length < 12)]
  rw [if_neg (by simp [Chunk.calculate_crc, hcc] : ¬ c ≠ Chunk.calculate_crc ⟨tb⟩ d)]

lemma chunk_tryFrom_stream_badcrc (L c : Nat) (tb d : List Nat) (hL : L < 2 ^ 32)
    (hc : c < 2 ^ 32) (htb : tb.length = 4)
    (hvalid : ∀ b ∈ tb, isTypeByte b = true) (hcc : c ≠ crc32 (tb ++ d)) :
    Chunk.tryFrom (u32be L ++ (tb ++ (d ++ u32be c))) =
      .error (.invalidCrc c (crc32 (tb ++ d))) := by
  have hlen := chunk_stream_length L c tb d htb
  simp only [Chunk.tryFrom, hlen, chunk_stream_take4, chunk_stream_type L c tb d htb,
    chunkType_tryFrom_ok tb hvalid,
    show 12 + d.length - 12 = d.length from by omega,
    show 12 + d.length - 4 = 8 + d.length from by omega,
    chunk_stream_data L c tb d htb, chunk_stream_crc L c tb d htb,
    fromBe_u32be L hL, fromBe_u32be c hc,
    if_neg (by omega : ¬ 12 + d.length < 8),
    if_neg (by omega : ¬ 12 + d.length < 12)]
  rw [if_pos (by simp only [Chunk.calculate_crc, ChunkType.mk.injEq]; exact hcc :
    c ≠ Chunk.calculate_crc ⟨tb⟩ d)]
  simp [Chunk.calculate_crc]

lemma chunk_tryFrom_stream_badtype (L c : Nat) (tb d : List Nat) (e : CodecError)
    (htb : tb.length = 4) (htype : ChunkType.tryFrom tb = .error e) :
    Chunk.tryFrom (u32be L ++ (tb ++ (d ++ u32be c))) = .error e := by
  have hlen := chunk_stream_length L c tb d htb
  simp only [Chunk.tryFrom, hlen, chunk_stream_type L c tb d htb, htype,
    if_neg (by omega : ¬ 12 + d.length < 8)]

lemma isTypeByte_lt {b : Nat} (h : isTypeByte b = true) : b < 256 := by
  simp [isTypeByte] at h
  omega

lemma typeData_bytes_lt {tb d : List Nat} (hvalid : ∀ b ∈ tb, isTypeByte b = true)
    (hd : ∀ b ∈ d, b < 256) : ∀ b ∈ tb ++ d, b < 256 := by
  intro b hb
  rcases List.mem_append.mp hb with h | h
  · exact isTypeByte_lt (hvalid b h)
  · exact hd b h

lemma chunk_tryFrom_as_bytes (c : Chunk) (h : c.WF) :
    Chunk.tryFrom c.as_bytes = .ok c := by
  obtain ⟨⟨htb, hvalid⟩, hdata, hlen, hsmall, hcrc⟩ := h
  have hc32 : crc32 (c.chunk_type.bytes ++ c.data) < 2 ^ 32 :=
    crc32_lt _ (typeData_bytes_lt hvalid hdata)
  unfold Chunk.as_bytes
  rw [hcrc]
  rw [chunk_tryFrom_stream_ok c.length (Chunk.calculate_crc c.chunk_type c.data)
    c.chunk_type.bytes c.data (by omega) (by simpa [Chunk.calculate_crc] using hc32)
    htb hvalid (by simp [Chunk.calculate_crc])]
  rw [← hcrc]

/-! ### The claims -/

/-- C1: for every well-formed 4-letter type code `t` and every byte sequence
`d`, parsing the serialization of `Chunk::new(t, d)` succeeds and returns a
chunk equal to `Chunk::new(t, d)` in all four fields. -/
theorem c1_chunk_roundtrip (t : ChunkType) (d : List Nat)
    (ht : t.WellFormed) (hd : ∀ b ∈ d, b < 256) :
    Chunk.tryFrom (Chunk.new t d).as_bytes = .ok (Chunk.new t d) := by
  obtain ⟨htb, hvalid⟩ := ht
  have hc32 : crc32 (t.bytes ++ d) < 2 ^ 32 :=
    crc32_lt _ (typeData_bytes_lt hvalid hd)
  show Chunk.tryFrom (u32be (d.length % 2 ^ 32) ++
    (t.bytes ++ (d ++ u32be (Chunk.calculate_crc t d)))) = _
  rw [chunk_tryFrom_stream_ok (d.length % 2 ^ 32) (Chunk.calculate_crc t d)
    t.bytes d (Nat.mod_lt _ (by norm_num))
    (by simpa [Chunk.calculate_crc] using hc32) htb hvalid
    (by simp [Chunk.calculate_crc])]
  rfl

/-- Witness for C1 at the concrete type code "RuSt" and data `[1, 2, 3]`. -/
theorem c1_chunk_roundtrip_witness :
    Chunk.tryFrom (Chunk.new rustType [1, 2, 3]).as_bytes =
      .ok (Chunk.new rustType [1, 2, 3]) :=
  c1_chunk_roundtrip rustType [1, 2, 3] (by decide) (by decide)

lemma isTypeByte_lt128 {b : Nat} (h : isTypeByte b = true) : b < 128 := by
  simp [isTypeByte] at h
  omega

lemma lossyDecode_id (l : List Nat) (h : ∀ b ∈ l, b < 128) : lossyDecode l = l := by
  induction l with
  | nil => rfl
  | cons a l ih =>
    have ha : a < 128 := h a (by simp)
    simp only [lossyDecode, List.flatMap_cons, if_pos ha]
    simp only [lossyDecode] at ih
    rw [ih (fun b hb => h b (by simp [hb]))]
    rfl

/-- C2 counterexample: the test message has 42 bytes, so the chunk's length
field is 42, not the claimed 44. -/
theorem c2_concrete_cex : (Chunk.new rustType secretMsg).length ≠ 44 := by decide

/-- C2 amended: for the type code "RuSt" and the data bytes of the string
"This is where your secret message will be!", `Chunk::new` produces the
checksum 2882656334 and the length 42 (the data's actual byte count, not
44); parsing the serialized bytes back recovers the identical chunk, and
its data decodes back to the identical string. -/
theorem c2_concrete_scenario :
    (Chunk.new rustType secretMsg).crc = 2882656334 ∧
    (Chunk.new rustType secretMsg).length = 42 ∧
    secretMsg.length = 42 ∧
    Chunk.tryFrom (Chunk.new rustType secretMsg).as_bytes =
      .ok (Chunk.new rustType secretMsg) ∧
    (Chunk.new rustType secretMsg).data_as_string = .ok secretMsg := by
  refine ⟨by decide, by decide, by decide, ?_, by decide⟩
  exact chunk_tryFrom_as_bytes (Chunk.new rustType secretMsg) (by decide)

/-- C3 counterexample: `badLenStream` declares length 1 but carries no data;
its CRC (computed over type + empty data only, which is all the CRC covers)
is genuine, so parsing succeeds and yields a chunk whose length field (1)
differs from its data byte count (0) — the parser never compares them. -/
theorem c3_length_invariant_cex :
    ∃ ch : Chunk, Chunk.tryFrom badLenStream = .ok ch ∧
      ch.length ≠ ch.data.length :=
  ⟨⟨1, ⟨[82, 117, 83, 116]⟩, [], crc32 [82, 117, 83, 116]⟩, by decide, by decide⟩

/-- C3 amended: chunks built by `Chunk::new` satisfy the invariant
`length = data.len()` (for any data that fits a `u32`); chunks produced by
parsing need not, because the parser takes the length field from the first
4 bytes without checking it against the actual data span. -/
theorem c3_new_length_invariant (t : ChunkType) (d : List Nat)
    (h : d.length < 2 ^ 32) :
    (Chunk.new t d).length = (Chunk.new t d).data.length := by
  simp only [Chunk.new]
  omega

/-- Witness for C3's amended statement at a concrete chunk. -/
theorem c3_new_length_invariant_witness :
    (Chunk.new rustType [7]).length = (Chunk.new rustType [7]).data.length :=
  c3_new_length_invariant rustType [7] (by decide)

/-- C4 counterexample: on the empty slice the parser's outcome is the
out-of-range slice panic (`value[0..4]` in chunk.rs line 90), not a
returned `MalformedRecord`-style error value — no such error exists in the
code. -/
theorem c4_short_input_cex : Chunk.tryFrom ([] : List Nat) = .error .slicePanic :=
  rfl

/-- C4 amended: for every byte slice shorter than 12 bytes, `Chunk::parse`
never returns a chunk: it panics from out-of-range slicing (always when
shorter than 8 bytes; for lengths 8-11, when the type bytes are valid),
or fails with the invalid-type-byte error (lengths 8-11 with a type byte
outside `A-Z`/`a-z`, validated before the data slice is taken). -/
theorem c4_short_input (v : List Nat) (h : v.length < 12) :
    Chunk.tryFrom v = .error .slicePanic ∨
      ∃ b, Chunk.tryFrom v = .error (.invalidByte b) := by
  unfold Chunk.tryFrom
  by_cases h8 : v.length < 8
  · rw [if_pos h8]
    exact .inl rfl
  · rw [if_neg h8]
    cases htc : ChunkType.tryFrom ((v.drop 4).take 4) with
    | error e =>
      obtain ⟨b, hb⟩ := chunkType_tryFrom_error htc
      exact .inr ⟨b, by simp [hb]⟩
    | ok ct =>
      left
      simp only [if_pos h]

/-- Witness for C4's amended statement at the 4-byte all-zero slice. -/
theorem c4_short_input_witness :
    Chunk.tryFrom [0, 0, 0, 0] = .error .slicePanic ∨
      ∃ b, Chunk.tryFrom [0, 0, 0, 0] = .error (.invalidByte b) :=
  c4_short_input [0, 0, 0, 0] (by decide)

/-- C7: for every 4-byte string of ASCII letters, `from_str` succeeds and
rendering the resulting type code back with `Display` yields the same
string (byte for byte). -/
theorem c7_type_string_roundtrip (s : List Nat) (hlen : s.length = 4)
    (hletters : ∀ b ∈ s, isTypeByte b = true) :
    ∃ t, ChunkType.fromStr s = .ok t ∧ t.toString = s := by
  refine ⟨⟨s⟩, ?_, ?_⟩
  · unfold ChunkType.fromStr
    rw [if_neg (by omega)]
    rw [List.take_of_length_le (by omega), chunkType_tryFrom_ok s hletters]
  · exact lossyDecode_id s (fun b hb => isTypeByte_lt128 (hletters b hb))

/-- Witness for C7 at the concrete string "RuSt". -/
theorem c7_type_string_roundtrip_witness :
    ∃ t, ChunkType.fromStr [82, 117, 83, 116] = .ok t ∧
      t.toString = [82, 117, 83, 116] :=
  c7_type_string_roundtrip [82, 117, 83, 116] (by decide) (by decide)

/-- C8: the flag accessors read bit 5 of their byte as the spec's table
assigns them: "RuSt" gives critical, non-public, reserved-bit-valid,
safe-to-copy; "Rust" gives an invalid reserved bit; and `is_valid` agrees
with `is_reserved_bit_valid` on every type code. -/
theorem c8_flag_accessors :
    ChunkType.fromStr [82, 117, 83, 116] = .ok rustType ∧
    rustType.is_critical = true ∧
    rustType.is_public = false ∧
    rustType.is_reserved_bit_valid = true ∧
    rustType.is_safe_to_copy = true ∧
    (∃ u, ChunkType.fromStr [82, 117, 115, 116] = .ok u ∧
      u.is_reserved_bit_valid = false) ∧
    ∀ v : ChunkType, v.is_valid = v.is_reserved_bit_valid :=
  ⟨by decide, by decide, by decide, by decide, by decide,
    ⟨⟨[82, 117, 115, 116]⟩, by decide, by decide⟩, fun v => rfl⟩

/-- C9: `data_as_string` fails with the non-ASCII-byte error exactly when
some data byte is at least 128; when every data byte is below 128 it
returns the string whose bytes are exactly the chunk's data bytes. -/
theorem c9_data_as_text (c : Chunk) :
    ((∃ b, c.data_as_string = .error (.invalidChar b)) ↔ ∃ b ∈ c.data, 128 ≤ b) ∧
    ((∀ b ∈ c.data, b < 128) → c.data_as_string = .ok c.data) := by
  unfold Chunk.data_as_string
  cases hf : c.data.find? (fun b => !(b ≤ 127)) with
  | none =>
    have hall : ∀ b ∈ c.data, b ≤ 127 := fun b hb => by
      have := List.find?_eq_none.mp hf b hb
      simpa using this
    constructor
    · constructor
      · rintro ⟨b, hb⟩
        exact absurd hb (by simp)
      · rintro ⟨b, hb, hge⟩
        exact absurd (hall b hb) (by omega)
    · intro hlt
      rw [lossyDecode_id c.data hlt]
  | some b =>
    have hmem : b ∈ c.data := List.mem_of_find?_eq_some hf
    have hgt : 127 < b := by
      have := List.find?_some hf
      simpa using this
    constructor
    · constructor
      · intro _
        exact ⟨b, hmem, by omega⟩
      · intro _
        exact ⟨b, rfl⟩
    · intro hlt
      exact absurd (hlt b hmem) (by omega)

/-- Witness for C9's all-ASCII branch at a concrete chunk with data "Hi". -/
theorem c9_data_as_text_witness :
    (Chunk.new rustType [72, 105]).data_as_string = .ok [72, 105] :=
  (c9_data_as_text (Chunk.new rustType [72, 105])).2 (by decide)

/-- C10: the bit-lookup helper is total at bit position 5 (which satisfies
its `n <= 8` guard), so every flag accessor's `.unwrap()` is unreachable
on every type code: the helper always returns `some`. -/
theorem c10_get_bit_total (t : ChunkType) :
    (ChunkType.get_bit_at (t.bytes.getD 0 0) 5).isSome = true ∧
    (ChunkType.get_bit_at (t.bytes.getD 1 0) 5).isSome = true ∧
    (ChunkType.get_bit_at (t.bytes.getD 2 0) 5).isSome = true ∧
    (ChunkType.get_bit_at (t.bytes.getD 3 0) 5).isSome = true := by
  refine ⟨?_, ?_, ?_, ?_⟩ <;> simp [ChunkType.get_bit_at]

/-! ### Bit-flip decomposition lemmas -/

lemma flipBit_at_append (A B : List Nat) (b : Nat) (j : Nat) :
    flipBit (A ++ b :: B) A.length j = A ++ (b ^^^ (1 <<< j)) :: B := by
  unfold flipBit
  have ht : (A ++ b :: B).take A.length = A := List.take_left A (b :: B)
  have hg : (A ++ b :: B).getD A.length 0 = b := by
    simp [List.getD, List.getElem?_append_right (Nat.le_refl A.length)]
  have hdr : (A ++ b :: B).drop (A.length + 1) = B := by
    rw [List.drop_append_eq_append_drop]
    simp
  rw [ht, hg, hdr]

lemma xor_shift_ne (b j : Nat) : b ≠ b ^^^ (1 <<< j) := by
  intro heq
  have h0 : b ^^^ b = b ^^^ (b ^^^ (1 <<< j)) := congrArg (fun x => b ^^^ x) heq
  rw [Nat.xor_self, Nat.xor_cancel_left] at h0
  have : 0 < 1 <<< j := by
    rw [Nat.shiftLeft_eq, one_mul]
    exact Nat.pos_pow_of_pos j (by norm_num)
  omega

lemma xor_shift_lt {b j : Nat} (hb : b < 256) (hj : j < 8) :
    b ^^^ (1 <<< j) < 256 := by
  have hs : 1 <<< j < 256 := by
    rw [Nat.shiftLeft_eq, one_mul]
    calc 2 ^ j < 2 ^ 8 := Nat.pow_lt_pow_right (by norm_num) hj
    _ = 256 := by norm_num
  exact Nat.xor_lt_two_pow (n := 8) hb hs

lemma getD_mem {l : List Nat} {k : Nat} (h : k < l.length) : l.getD k 0 ∈ l := by
  rw [List.getD_eq_getElem l 0 h]
  exact List.getElem_mem h

lemma find?_invalid_first (l1 : List Nat) (x : Nat) (l2 : List Nat)
    (h1 : ∀ y ∈ l1, isTypeByte y = true) (hx : isTypeByte x = false) :
    (l1 ++ x :: l2).find? (fun b => !isTypeByte b) = some x := by
  induction l1 with
  | nil =>
    rw [List.nil_append]
    exact List.find?_cons_of_pos _ (by simp [hx])
  | cons a l1 ih =>
    rw [List.cons_append, List.find?_cons_of_neg _ (by simp [h1 a (by simp)])]
    exact ih (fun y hy => h1 y (by simp [hy]))

lemma flip_stream_data (L c : Nat) (tb d : List Nat) (htb : tb.length = 4)
    (k j : Nat) (hk : k < d.length) :
    flipBit (u32be L ++ (tb ++ (d ++ u32be c))) (8 + k) j =
      u32be L ++ (tb ++
        ((d.take k ++ (d.getD k 0 ^^^ (1 <<< j)) :: d.drop (k + 1)) ++ u32be c)) := by
  have hsplit : u32be L ++ (tb ++ (d ++ u32be c)) =
      (u32be L ++ (tb ++ d.take k)) ++
        d.getD k 0 :: (d.drop (k + 1) ++ u32be c) := by
    conv_lhs => rw [← take_getD_drop d k hk]
    simp [List.append_assoc]
  have hA : (u32be L ++ (tb ++ d.take k)).length = 8 + k := by
    simp [length_u32be, htb]
    omega
  rw [hsplit, ← hA, flipBit_at_append]
  simp [List.append_assoc]

lemma flip_stream_type (L c : Nat) (tb d : List Nat) (htb : tb.length = 4)
    (k j : Nat) (hk : k < 4) :
    flipBit (u32be L ++ (tb ++ (d ++ u32be c))) (4 + k) j =
      u32be L ++
        ((tb.take k ++ (tb.getD k 0 ^^^ (1 <<< j)) :: tb.drop (k + 1)) ++
          (d ++ u32be c)) := by
  have hsplit : u32be L ++ (tb ++ (d ++ u32be c)) =
      (u32be L ++ tb.take k) ++
        tb.getD k 0 :: (tb.drop (k + 1) ++ (d ++ u32be c)) := by
    conv_lhs => rw [← take_getD_drop tb k (by omega)]
    simp [List.append_assoc]
  have hA : (u32be L ++ tb.take k).length = 4 + k := by
    simp [length_u32be, htb]
    omega
  rw [hsplit, ← hA, flipBit_at_append]
  simp [List.append_assoc]

lemma c5aux_data (t : ChunkType) (d : List Nat) (ht : t.WellFormed)
    (hd : ∀ b ∈ d, b < 256) (k j : Nat) (hj : j < 8) (hk : k < d.length) :
    Chunk.tryFrom (flipBit (Chunk.new t d).as_bytes (8 + k) j) =
      .error (.invalidCrc (Chunk.calculate_crc t d)
        (crc32 (t.bytes ++
          (d.take k ++ (d.getD k 0 ^^^ (1 <<< j)) :: d.drop (k + 1))))) := by
  obtain ⟨htb, hvalid⟩ := ht
  have hb : d.getD k 0 < 256 := hd _ (getD_mem hk)
  have hc32 : crc32 (t.bytes ++ d) < 2 ^ 32 :=
    crc32_lt _ (typeData_bytes_lt hvalid hd)
  show Chunk.tryFrom (flipBit (u32be (d.length % 2 ^ 32) ++
    (t.bytes ++ (d ++ u32be (Chunk.calculate_crc t d)))) (8 + k) j) = _
  rw [flip_stream_data _ _ _ _ htb k j hk]
  refine chunk_tryFrom_stream_badcrc _ _ _ _ (Nat.mod_lt _ (by norm_num))
    (by simpa [Chunk.calculate_crc] using hc32) htb hvalid ?_
  have hrw : t.bytes ++ d =
      (t.bytes ++ d.take k) ++ d.getD k 0 :: d.drop (k + 1) := by
    conv_lhs => rw [← take_getD_drop d k hk]
    simp [List.append_assoc]
  have hrw' : t.bytes ++ (d.take k ++ (d.getD k 0 ^^^ (1 <<< j)) :: d.drop (k + 1)) =
      (t.bytes ++ d.take k) ++ (d.getD k 0 ^^^ (1 <<< j)) :: d.drop (k + 1) := by
    simp [List.append_assoc]
  unfold Chunk.calculate_crc
  rw [hrw, hrw']
  exact crc32_flip_ne _ _ _ _
    (typeData_bytes_lt hvalid (fun x hx => hd x (List.take_subset k d hx)))
    (fun x hx => hd x (List.drop_subset (k + 1) d hx))
    hb (xor_shift_lt hb hj) (xor_shift_ne _ j)

lemma c5aux_type_valid (t : ChunkType) (d : List Nat) (ht : t.WellFormed)
    (hd : ∀ b ∈ d, b < 256) (k j : Nat) (hj : j < 8) (hk : k < 4)
    (hb' : isTypeByte (t.bytes.getD k 0 ^^^ (1 <<< j)) = true) :
    Chunk.tryFrom (flipBit (Chunk.new t d).as_bytes (4 + k) j) =
      .error (.invalidCrc (Chunk.calculate_crc t d)
        (crc32 ((t.bytes.take k ++
          (t.bytes.getD k 0 ^^^ (1 <<< j)) :: t.bytes.drop (k + 1)) ++ d))) := by
  obtain ⟨htb, hvalid⟩ := ht
  have hkb : k < t.bytes.length := by omega
  have hb : t.bytes.getD k 0 < 256 := isTypeByte_lt (hvalid _ (getD_mem hkb))
  have hc32 : crc32 (t.bytes ++ d) < 2 ^ 32 :=
    crc32_lt _ (typeData_bytes_lt hvalid hd)
  have htb' : (t.bytes.take k ++
      (t.bytes.getD k 0 ^^^ (1 <<< j)) :: t.bytes.drop (k + 1)).length = 4 := by
    simp [List.length_take, List.length_drop, htb]
    omega
  have hvalid' : ∀ b ∈ t.bytes.take k ++
      (t.bytes.getD k 0 ^^^ (1 <<< j)) :: t.bytes.drop (k + 1),
      isTypeByte b = true := by
    intro b hbm
    rcases List.mem_append.mp hbm with h | h
    · exact hvalid b (List.take_subset k t.bytes h)
    · rcases List.mem_cons.mp h with h | h
      · rw [h]; exact hb'
      · exact hvalid b (List.drop_subset (k + 1) t.bytes h)
  show Chunk.tryFrom (flipBit (u32be (d.length % 2 ^ 32) ++
    (t.bytes ++ (d ++ u32be (Chunk.calculate_crc t d)))) (4 + k) j) = _
  rw [flip_stream_type _ _ _ _ htb k j hk]
  refine chunk_tryFrom_stream_badcrc _ _ _ _ (Nat.mod_lt _ (by norm_num))
    (by simpa [Chunk.calculate_crc] using hc32) htb' hvalid' ?_
  have hrw : t.bytes ++ d =
      t.bytes.take k ++ t.bytes.getD k 0 :: (t.bytes.drop (k + 1) ++ d) := by
    conv_lhs => rw [← take_getD_drop t.bytes k hkb]
    simp [List.append_assoc]
  have hrw' : (t.bytes.take k ++
      (t.bytes.getD k 0 ^^^ (1 <<< j)) :: t.bytes.drop (k + 1)) ++ d =
      t.bytes.take k ++ (t.bytes.getD k 0 ^^^ (1 <<< j)) ::
        (t.bytes.drop (k + 1) ++ d) := by
    simp [List.append_assoc]
  unfold Chunk.calculate_crc
  rw [hrw, hrw']
  refine crc32_flip_ne _ _ _ _
    (fun x hx => isTypeByte_lt (hvalid x (List.take_subset k t.bytes hx))) ?_
    hb (xor_shift_lt hb hj) (xor_shift_ne _ j)
  intro x hx
  rcases List.mem_append.mp hx with h | h
  · exact isTypeByte_lt (hvalid x (List.drop_subset (k + 1) t.bytes h))
  · exact hd x h

lemma c5aux_type_invalid (t : ChunkType) (d : List Nat) (ht : t.WellFormed)
    (hd : ∀ b ∈ d, b < 256) (k j : Nat) (hj : j < 8) (hk : k < 4)
    (hb' : isTypeByte (t.bytes.getD k 0 ^^^ (1 <<< j)) = false) :
    Chunk.tryFrom (flipBit (Chunk.new t d).as_bytes (4 + k) j) =
      .error (.invalidByte (t.bytes.getD k 0 ^^^ (1 <<< j))) := by
  obtain ⟨htb, hvalid⟩ := ht
  have htb' : (t.bytes.take k ++
      (t.bytes.getD k 0 ^^^ (1 <<< j)) :: t.bytes.drop (k + 1)).length = 4 := by
    simp [List.length_take, List.length_drop, htb]
    omega
  show Chunk.tryFrom (flipBit (u32be (d.length % 2 ^ 32) ++
    (t.bytes ++ (d ++ u32be (Chunk.calculate_crc t d)))) (4 + k) j) = _
  rw [flip_stream_type _ _ _ _ htb k j hk]
  refine chunk_tryFrom_stream_badtype _ _ _ _ _ htb' ?_
  unfold ChunkType.tryFrom
  rw [find?_invalid_first (t.bytes.take k) _ (t.bytes.drop (k + 1))
    (fun y hy => hvalid y (List.take_subset k t.bytes hy)) hb']

/-- C5 counterexample: flipping bit 6 of the first type-segment byte of the
serialized empty-data "RuSt" chunk turns the byte 82 into 18, which is not
an ASCII letter, so re-parsing fails with the invalid-type-byte error — not
with `ChecksumMismatch` as the claim states for every type-segment flip. -/
theorem c5_bitflip_cex :
    ¬ ∃ found expected,
      Chunk.tryFrom (flipBit (Chunk.new rustType []).as_bytes 4 6) =
        .error (.invalidCrc found expected) := by
  have h : Chunk.tryFrom (flipBit (Chunk.new rustType []).as_bytes 4 6) =
      .error (.invalidByte 18) := by decide
  rintro ⟨f, e, hfe⟩
  rw [h] at hfe
  simp at hfe

/-- C5 amended: flipping any single bit of a serialized chunk's data
segment and re-parsing fails with the checksum-mismatch error; flipping a
bit of the type segment fails with checksum-mismatch when the flipped byte
is still an ASCII letter, and with the invalid-type-byte error (raised by
the type validation, which runs before the checksum check) otherwise. -/
theorem c5_bitflip (t : ChunkType) (d : List Nat) (ht : t.WellFormed)
    (hd : ∀ b ∈ d, b < 256) (i j : Nat) (hj : j < 8) (hi4 : 4 ≤ i)
    (hi : i < 8 + d.length) :
    (8 ≤ i → ∃ found expected,
      Chunk.tryFrom (flipBit (Chunk.new t d).as_bytes i j) =
        .error (.invalidCrc found expected)) ∧
    (i < 8 →
      (isTypeByte (t.bytes.getD (i - 4) 0 ^^^ (1 <<< j)) = true →
        ∃ found expected,
          Chunk.tryFrom (flipBit (Chunk.new t d).as_bytes i j) =
            .error (.invalidCrc found expected)) ∧
      (isTypeByte (t.bytes.getD (i - 4) 0 ^^^ (1 <<< j)) = false →
        ∃ b, Chunk.tryFrom (flipBit (Chunk.new t d).as_bytes i j) =
          .error (.invalidByte b))) := by
  constructor
  · intro h8
    obtain ⟨k, rfl⟩ : ∃ k, i = 8 + k := ⟨i - 8, by omega⟩
    exact ⟨_, _, c5aux_data t d ht hd k j hj (by omega)⟩
  · intro h8
    obtain ⟨k, rfl⟩ : ∃ k, i = 4 + k := ⟨i - 4, by omega⟩
    rw [Nat.add_sub_cancel_left]
    constructor
    · intro hv
      exact ⟨_, _, c5aux_type_valid t d ht hd k j hj (by omega) hv⟩
    · intro hv
      exact ⟨_, c5aux_type_invalid t d ht hd k j hj (by omega) hv⟩

/-- Witness for C5's amended statement: a data-segment flip at byte index 8,
bit 0, of a one-byte "RuSt" chunk is detected as a checksum mismatch. -/
theorem c5_bitflip_witness :
    ∃ found expected,
      Chunk.tryFrom (flipBit (Chunk.new rustType [0]).as_bytes 8 0) =
        .error (.invalidCrc found expected) :=
  (c5_bitflip rustType [0] (by decide) (by decide) 8 0 (by decide) (by decide)
    (by decide)).1 (by decide)

/-! ### Container round trip -/

lemma png_build (init cs : List Chunk) :
    cs.foldl Png.append ⟨init⟩ = ⟨init ++ cs⟩ := by
  induction cs generalizing init with
  | nil => simp
  | cons c cs ih =>
    rw [List.foldl_cons]
    show cs.foldl Png.append ⟨init ++ [c]⟩ = _
    rw [ih (init ++ [c])]
    simp

lemma as_bytes_length (c : Chunk) :
    c.as_bytes.length = 8 + c.chunk_type.bytes.length + c.data.length := by
  simp [Chunk.as_bytes, length_u32be]
  omega

lemma flatten_as_bytes_length (cs : List Chunk) :
    cs.length ≤ ((cs.map Chunk.as_bytes).flatten).length := by
  induction cs with
  | nil => simp
  | cons c cs ih =>
    have h1 : 1 ≤ c.as_bytes.length := by
      rw [as_bytes_length]
      omega
    simp only [List.map_cons, List.flatten_cons, List.length_append, List.length_cons]
    omega

lemma parseChunksF_cons (fuel : Nat) (c : Chunk) (h : c.WF) (rest : List Nat) :
    parseChunksF (fuel + 1) (c.as_bytes ++ rest) =
      match parseChunksF fuel rest with
      | .error e => .error e
      | .ok cs => .ok (c :: cs) := by
  have hwf := h
  obtain ⟨⟨htb, hvalid⟩, hdata, hlen, hsmall, hcrc⟩ := h
  have habl : c.as_bytes.length = 12 + c.length := by
    rw [as_bytes_length, htb]
    omega
  have hne : c.as_bytes ++ rest ≠ [] := by
    intro he
    have := congrArg List.length he
    simp [habl] at this
  have htk4 : (c.as_bytes ++ rest).take 4 = u32be c.length := by
    rw [List.take_append_of_le_length (by omega)]
    exact take_append_exact _ _ 4 rfl
  have h1 : (c.as_bytes ++ rest).take (12 + c.length) = c.as_bytes :=
    take_append_exact _ _ _ habl
  have h2 : (c.as_bytes ++ rest).drop (12 + c.length) = rest :=
    drop_append_exact _ _ _ habl
  simp only [parseChunksF, if_neg hne, htk4, fromBe_u32be c.length (by omega),
    h1, h2, chunk_tryFrom_as_bytes c hwf]

lemma parseChunksF_flatten (cs : List Chunk) (h : ∀ c ∈ cs, c.WF) (fuel : Nat)
    (hfuel : cs.length ≤ fuel) :
    parseChunksF fuel ((cs.map Chunk.as_bytes).flatten) = .ok cs := by
  induction cs generalizing fuel with
  | nil => cases fuel <;> simp [parseChunksF]
  | cons c cs ih =>
    cases fuel with
    | zero => simp at hfuel
    | succ fuel =>
      rw [List.map_cons, List.flatten_cons,
        parseChunksF_cons fuel c (h c (by simp)) _,
        ih (fun x hx => h x (by simp [hx])) fuel (by simpa using hfuel)]

/-- C6 counterexample: a container built by appending two chunks — first a
parse-produced chunk whose embedded length field (1) overstates its empty
data span, then an ordinary empty "RuSt" chunk — does not round-trip: the
container parser trusts the first chunk's length field, reads past its
record into the second one, and fails with a checksum mismatch. -/
theorem c6_container_roundtrip_cex :
    ∃ a : Chunk, Chunk.tryFrom badLenStream = .ok a ∧
      Png.tryFrom ((((⟨[]⟩ : Png).append a).append (Chunk.new rustType [])).as_bytes) ≠
        .ok (((⟨[]⟩ : Png).append a).append (Chunk.new rustType [])) :=
  ⟨⟨1, ⟨[82, 117, 83, 116]⟩, [], crc32 [82, 117, 83, 116]⟩, by decide, by decide⟩

/-- C6 amended: a container built purely by `append` from the empty
container round-trips through `as_bytes` and `parse` — provided every
appended chunk is well-formed, in particular that its length field equals
its actual data length (chunks built by `Chunk::new` always are; chunks
recovered by `Chunk::parse` from a stream with a forged length field need
not be, and such a chunk breaks the container round trip). -/
theorem c6_container_roundtrip (cs : List Chunk) (h : ∀ c ∈ cs, c.WF) :
    Png.tryFrom ((cs.foldl Png.append ⟨[]⟩).as_bytes) =
      .ok (cs.foldl Png.append ⟨[]⟩) := by
  rw [png_build]
  simp only [List.nil_append]
  have ht8 : (pngSignature ++ (cs.map Chunk.as_bytes).flatten).take 8 =
      pngSignature := take_append_exact _ _ 8 rfl
  have hd8 : (pngSignature ++ (cs.map Chunk.as_bytes).flatten).drop 8 =
      (cs.map Chunk.as_bytes).flatten := drop_append_exact _ _ 8 rfl
  simp only [Png.tryFrom, Png.as_bytes, ht8, hd8, ne_eq, not_true_eq_false,
    if_false, parseChunks,
    parseChunksF_flatten cs h _ (flatten_as_bytes_length cs)]

/-- Witness for C6's amended statement: a one-chunk container built by a
single `append` of a `Chunk::new` chunk round-trips. -/
theorem c6_container_roundtrip_witness :
    Png.tryFrom (([Chunk.new rustType [1]].foldl Png.append ⟨[]⟩).as_bytes) =
      .ok ([Chunk.new rustType [1]].foldl Png.append ⟨[]⟩) :=
  c6_container_roundtrip [Chunk.new rustType [1]] (by decide)
